import Mathlib

/-!
Shallow embedding of the CUE-sheet parser (`xbmc/CueDocument.cpp`) and proofs
about it.  Strings are modelled as Lean `String`s (lists of characters),
C `int` values as unbounded `Int` (the source never relies on overflow for
the properties considered here; C truncating division is `Int.div`).

External collaborators that are not part of the source under verification
(StringUtils, CUtil, URIUtils, CFile/CDirectory, the charset converter) are
either translated from their documented semantics or abstracted into an
`Env` record of function parameters, as noted on each definition.
-/

namespace CueDoc

/-- Lowercases an ASCII letter, the per-character operation used by
`StringUtils::StartsWithNoCase` (which compares with `tolower`). -/
def lowerChar (c : Char) : Char :=
  if 'A' ≤ c ∧ c ≤ 'Z' then Char.ofNat (c.toNat + 32) else c

/-- Character-list core of the case-insensitive prefix test. -/
def swnc : List Char → List Char → Bool
  | _, [] => true
  | [], _ :: _ => false
  | c :: cs, p :: ps => if lowerChar c = lowerChar p then swnc cs ps else false

/-- Modelled from the spec: `StringUtils::StartsWithNoCase` (StringUtils is not
part of the source under verification); case-insensitive on directive
keywords, comparing the beginning of `s` against `p`. -/
def startsWithNoCase (s p : String) : Bool := swnc s.data p.data

/-- C `isspace` characters (ASCII). -/
def isSpaceChar (c : Char) : Bool :=
  decide (c = ' ' ∨ c = '\t' ∨ c = '\n' ∨ c = '\x0b' ∨ c = '\x0c' ∨ c = '\r')

/-- Test from `StringUtils::isasciidigit`. -/
def isAsciiDigit (c : Char) : Bool := decide ('0' ≤ c ∧ c ≤ '9')

/-- Modelled from the spec: `StringUtils::TrimLeft` (whitespace removal at the
start of a line/field). -/
def trimLeft (s : String) : String := ⟨s.data.dropWhile fun c => isSpaceChar c⟩

/-- Modelled from the spec: `StringUtils::Trim` (whitespace removed at both
ends). -/
def trim (s : String) : String :=
  ⟨((s.data.dropWhile fun c => isSpaceChar c).reverse.dropWhile fun c =>
      isSpaceChar c).reverse⟩

/-- Leading-digit accumulator for `atoi`. -/
def digitsToNat : List Char → Nat → Nat
  | [], acc => acc
  | c :: cs, acc =>
    if isAsciiDigit c then digitsToNat cs (acc * 10 + (c.toNat - 48)) else acc

/-- Modelled from the spec: C `atoi` — skip leading whitespace, optional sign,
then parse the leading run of digits, ignoring trailing garbage. -/
def atoi (s : String) : Int :=
  match s.data.dropWhile fun c => isSpaceChar c with
  | [] => 0
  | c :: cs =>
    if c = '-' then -(digitsToNat cs 0 : Int)
    else if c = '+' then (digitsToNat cs 0 : Int)
    else (digitsToNat (c :: cs) 0 : Int)

/-- True when the first character of the string is an ASCII digit (the
"leading-digit-parsable" values of the claim). -/
def firstIsDigit (s : String) : Bool :=
  match s.data with
  | [] => false
  | c :: _ => isAsciiDigit c

/-- Splits a character list on `':'`, keeping empty fields. -/
def splitCAux : List Char → List (List Char)
  | [] => [[]]
  | c :: cs =>
    if c = ':' then [] :: splitCAux cs
    else
      match splitCAux cs with
      | [] => [[c]]
      | g :: gs => (c :: g) :: gs

/-- Modelled from the spec: `StringUtils::Split` on the `":"` delimiter
("splits the remainder on `:`"); an empty input yields no parts, otherwise
empty fields are kept. -/
def splitColon (s : String) : List String :=
  if s.data.isEmpty then [] else (splitCAux s.data).map fun g => ⟨g⟩

/-- Drops the first `n` characters, the use made of `std::string::substr(n)`
here (all call sites guarantee `n` does not exceed the length or occur on
claim-irrelevant lines). -/
def strDrop (s : String) (n : Nat) : String := ⟨s.data.drop n⟩

/-- Embedding of `CCueDocument::ExtractInfo`: the text between the first pair of double
quotes, else the whole line trimmed; the result goes through the external
charset converter `conv` (a parameter, see `Env.conv`). -/
def extractInfo (conv : String → String) (line : String) : String :=
  match line.data.dropWhile fun c => ¬ c = '"' with
  | _ :: rest =>
    match (rest.takeWhile fun c => ¬ c = '"'), (rest.dropWhile fun c => ¬ c = '"') with
    | mid, _ :: _ => conv ⟨mid⟩
    | _, [] => conv (trim line)
  | [] => conv (trim line)

/-- Embedding of `CCueDocument::ExtractNumericInfo`: trim left; fail with `-1` unless the
first character is an ASCII digit; else `atoi`. -/
def extractNumericInfo (info : String) : Int :=
  match (trimLeft info).data with
  | [] => -1
  | c :: _ => if isAsciiDigit c then atoi (trimLeft info) else -1

/-- Modelled from the spec: `CUtil::ConvertSecsToMilliSecs` (not in the source
under verification); the spec gives `minutes*60*1000 + seconds*1000`. -/
def convertSecsToMilliSecs (secs : Int) : Int := secs * 1000

/-- The `MM`/`SS`/`FF` components of an `INDEX` line: drop the directive
keyword (5 characters), trim, erase the leading run of digits (the index
number), trim again, and split on `':'`. -/
def indexTimeParts (index : String) : List String :=
  splitColon (trimLeft ⟨(trimLeft (strDrop index 5)).data.dropWhile fun c => isAsciiDigit c⟩)

/-- Embedding of `CCueDocument::ExtractTimeFromIndex`: `-1` unless the split yields exactly
three parts, else `mins*60*1000 + secs*1000 + frames*1000/75` with C
truncating division. -/
def extractTimeFromIndex (index : String) : Int :=
  match indexTimeParts index with
  | [m, s, f] =>
    convertSecsToMilliSecs (atoi m * 60 + atoi s) + Int.tdiv (atoi f * 1000) 75
  | _ => -1

/-- Replay-gain info.  Modelled from the spec: `ReplayGain::Info` lives outside
the source under verification; per the spec it is an optional gain and an
optional peak, each independently present.  `SetGain`/`SetPeak` parse their
raw argument externally; we record the raw field text. -/
structure RGInfo where
  gain : Option String := none
  peak : Option String := none
deriving DecidableEq

/-- One parsed track.  Field names and roles follow the source
(`CCueDocument::CCueTrack`); the structure declaration itself is in
`CueDocument.h`, not among the source files, so (modelled from the spec)
numeric fields start at 0 and strings empty. -/
structure CCueTrack where
  strArtist : String := ""
  strTitle : String := ""
  strFile : String := ""
  iTrackNumber : Int := 0
  iStartTime : Int := 0
  iEndTime : Int := 0
  replayGain : RGInfo := {}
deriving DecidableEq

/-- The document.  Field names follow the source; initial values (modelled
from the spec / the class declaration not in the source files) are zero,
empty, and `m_bOneFilePerTrack = false`. -/
structure CCueDocument where
  m_strArtist : String := ""
  m_strAlbum : String := ""
  m_strGenre : String := ""
  m_iYear : Int := 0
  m_iTrack : Int := 0
  m_iDiscNumber : Int := 0
  m_albumReplayGain : RGInfo := {}
  m_tracks : List CCueTrack := []
  m_bOneFilePerTrack : Bool := false
deriving DecidableEq

/-- External collaborators, abstracted as function parameters: the charset
converter (`g_charsetConverter.unknownToUTF8`), the `URIUtils` path helpers,
and the storage existence / directory-listing primitives used by
`ResolvePath`.  All are outside the source under verification (spec §6). -/
structure Env where
  conv : String → String
  getDirectory : String → String
  getFileName : String → String
  addFileToFolder : String → String → String
  fileExists : String → Bool
  dirItems : String → List String
  isPath : String → String → Bool

/-- Embedding of `CCueDocument::ResolvePath`: join the directory of `strBase` with the file
name of `strPath`; that joined path is always the result path, and the
boolean reports whether it exists or case-insensitively matches a directory
entry. -/
def resolvePath (env : Env) (strPath strBase : String) : String × Bool :=
  let strDirectory := env.getDirectory strBase
  let strFilename := env.getFileName strPath
  let newPath := env.addFileToFolder strDirectory strFilename
  if env.fileExists newPath then (newPath, true)
  else (newPath, (env.dirItems strDirectory).any fun item => env.isPath item newPath)

/-- The value stored into `strCurrentFile` by a `FILE` directive: the extracted
(quoted or trimmed) file name, routed through `ResolvePath` when both the
sheet location and the name are non-empty. -/
def fileDirectiveValue (env : Env) (strFile line : String) : String :=
  let v := extractInfo env.conv (strDrop line 4)
  if strFile ≠ "" ∧ v ≠ "" then (resolvePath env v strFile).fst else v

/-- The mutable cursors of `CCueDocument::Parse` besides the document itself
and the growing track list: `strCurrentFile`, `bCurrentFileChanged`, and the
`numberFiles` counter (`totalTracks` is the track-list length minus one). -/
structure LoopSt where
  strCurrentFile : String := ""
  bCurrentFileChanged : Bool := false
  numberFiles : Int := -1
deriving DecidableEq

/-- The `INDEX 01` track-list update: if at least two tracks exist and the
previous track's file equals the current file, set the previous track's end
time; always set the current (last) track's start time when a track exists.
The track list is kept in reverse order (most recent first). -/
def applyIndexTime (time : Int) (cur : String) : List CCueTrack → List CCueTrack
  | [] => []
  | [last] => [{ last with iStartTime := time }]
  | last :: prev :: rest =>
    if prev.strFile = cur then
      { last with iStartTime := time } :: { prev with iEndTime := time } :: rest
    else
      { last with iStartTime := time } :: prev :: rest

/-- One iteration of the parse loop of `CCueDocument::Parse`: dispatch on the
directive keyword.  `none` is the two `return false` sites (cross-file track
split, mangled `INDEX` time).  The track list `rev` is in reverse order. -/
def parseStep (env : Env) (strFile line : String) (doc : CCueDocument)
    (st : LoopSt) (rev : List CCueTrack) :
    Option (CCueDocument × LoopSt × List CCueTrack) :=
  if startsWithNoCase line "INDEX 01" then
    if st.bCurrentFileChanged then none
    else if extractTimeFromIndex line = -1 then none
    else some (doc, st, applyIndexTime (extractTimeFromIndex line) st.strCurrentFile rev)
  else if startsWithNoCase line "TITLE" then
    match rev with
    | [] => some ({ doc with m_strAlbum := extractInfo env.conv (strDrop line 5) }, st, rev)
    | t :: rest =>
      some (doc, st, { t with strTitle := extractInfo env.conv (strDrop line 5) } :: rest)
  else if startsWithNoCase line "PERFORMER" then
    match rev with
    | [] => some ({ doc with m_strArtist := extractInfo env.conv (strDrop line 9) }, st, rev)
    | t :: rest =>
      some (doc, st, { t with strArtist := extractInfo env.conv (strDrop line 9) } :: rest)
  else if startsWithNoCase line "TRACK" then
    some (doc, { st with bCurrentFileChanged := false },
      { strFile := st.strCurrentFile,
        iTrackNumber :=
          if extractNumericInfo (strDrop line 5) > 0 then extractNumericInfo (strDrop line 5)
          else (rev.length : Int) + 1 } :: rev)
  else if startsWithNoCase line "REM DISCNUMBER" then
    some (if extractNumericInfo (strDrop line 14) > 0 then
            { doc with m_iDiscNumber := extractNumericInfo (strDrop line 14) }
          else doc, st, rev)
  else if startsWithNoCase line "FILE" then
    some (doc,
      { strCurrentFile := fileDirectiveValue env strFile line,
        bCurrentFileChanged :=
          if st.strCurrentFile = "" then st.bCurrentFileChanged else true,
        numberFiles := st.numberFiles + 1 }, rev)
  else if startsWithNoCase line "REM DATE" then
    some (if extractNumericInfo (strDrop line 8) > 0 then
            { doc with m_iYear := extractNumericInfo (strDrop line 8) }
          else doc, st, rev)
  else if startsWithNoCase line "REM GENRE" then
    some ({ doc with m_strGenre := extractInfo env.conv (strDrop line 9) }, st, rev)
  else if startsWithNoCase line "REM REPLAYGAIN_ALBUM_GAIN" then
    some ({ doc with m_albumReplayGain :=
            { doc.m_albumReplayGain with gain := some (strDrop line 26) } }, st, rev)
  else if startsWithNoCase line "REM REPLAYGAIN_ALBUM_PEAK" then
    some ({ doc with m_albumReplayGain :=
            { doc.m_albumReplayGain with peak := some (strDrop line 26) } }, st, rev)
  else if startsWithNoCase line "REM REPLAYGAIN_TRACK_GAIN" then
    match rev with
    | [] => some (doc, st, rev)
    | t :: rest =>
      some (doc, st, { t with replayGain := { t.replayGain with gain := some (strDrop line 26) } } :: rest)
  else if startsWithNoCase line "REM REPLAYGAIN_TRACK_PEAK" then
    match rev with
    | [] => some (doc, st, rev)
    | t :: rest =>
      some (doc, st, { t with replayGain := { t.replayGain with peak := some (strDrop line 26) } } :: rest)
  else
    some (doc, st, rev)

/-- Result of running the parse loop: a mid-loop failure carries the document
as observable at the failure site (the source `return false` does not clear
the already-pushed tracks), a completed loop carries the final cursors. -/
inductive LoopRes where
  | fail (doc : CCueDocument)
  | done (doc : CCueDocument) (st : LoopSt) (rev : List CCueTrack)
deriving DecidableEq

/-- The `while (reader.ReadLine(strLine))` loop of `CCueDocument::Parse` over
the (already trimmed, non-blank) lines the reader yields. -/
def parseLoop (env : Env) (strFile : String) :
    List String → CCueDocument → LoopSt → List CCueTrack → LoopRes
  | [], doc, st, rev => .done doc st rev
  | line :: rest, doc, st, rev =>
    match parseStep env strFile line doc st rev with
    | none => .fail { doc with m_tracks := rev.reverse }
    | some (d, s, r) => parseLoop env strFile rest d s r

/-- Embedding of `CCueDocument::Clear`: resets the album fields, counters, album replay
gain and the track list — and nothing else (in particular not
`m_bOneFilePerTrack`). -/
def CCueDocument.Clear (doc : CCueDocument) : CCueDocument :=
  { doc with m_strArtist := "", m_strAlbum := "", m_strGenre := "", m_iYear := 0,
             m_iTrack := 0, m_iDiscNumber := 0, m_albumReplayGain := {}, m_tracks := [] }

/-- Embedding of `CCueDocument::Parse`.  `ready` is `reader.ready()`; `lines` is the
sequence of trimmed non-empty lines the reader yields; `strFile` is the
sheet's own location (empty for `ParseTag`).  Returns the C++ `bool` together
with the document state observable afterwards. -/
def CCueDocument.Parse (env : Env) (doc : CCueDocument) (ready : Bool)
    (lines : List String) (strFile : String) : Bool × CCueDocument :=
  let doc := doc.Clear
  if !ready then (false, doc)
  else
    match parseLoop env strFile lines doc {} [] with
    | .fail d => (false, d)
    | .done d st rev =>
      let d := { d with m_iTrack := 0 }
      let rev :=
        match rev with
        | t :: rest => { t with iEndTime := 0 } :: rest
        | [] => []
      let d := { d with m_tracks := rev.reverse }
      let d :=
        if (rev.length : Int) - 1 = st.numberFiles then { d with m_bOneFilePerTrack := true }
        else d
      (!rev.isEmpty, d)

/-- Embedding of `CCueDocument::IsLoaded`. -/
def CCueDocument.IsLoaded (doc : CCueDocument) : Bool := !doc.m_tracks.isEmpty

/-- Embedding of `CCueDocument::IsOneFilePerTrack`. -/
def CCueDocument.IsOneFilePerTrack (doc : CCueDocument) : Bool := doc.m_bOneFilePerTrack

/-- Modelled from the spec: `CUtil::ConvertMilliSecsToSecsIntRounded` is not
among the source files; the spec specifies "rounding (endOffset −
startOffset) milliseconds to seconds" — round to the nearest whole second. -/
def roundMilliSecsToSecs (ms : Int) : Int := Int.tdiv (ms + 500) 1000

/-- Modelled from the spec: the `"Track {:2d}"` label synthesised for untitled
tracks (`StringUtils::Format` is an external collaborator): the number,
space-padded to width 2. -/
def trackLabel (n : Int) : String :=
  "Track " ++ (if 0 ≤ n ∧ n < 10 then " " else "") ++ toString n

/-- The per-track record fields of `CCueDocument::GetSongs` that are computed
locally: artist fallback, album, disc-packed track number, title fallback,
file name, offsets and the rounded duration.  (Album-artist/genre splitting
on the external settings separator and replay-gain propagation consume
external collaborators and are not needed by any claim.) -/
structure CSong where
  strArtistDesc : String := ""
  strAlbum : String := ""
  iTrack : Int := 0
  strTitle : String := ""
  strFileName : String := ""
  iStartOffset : Int := 0
  iEndOffset : Int := 0
  iDuration : Int := 0
deriving DecidableEq

/-- The body of the `GetSongs` transform for one track. -/
def songOfTrack (doc : CCueDocument) (track : CCueTrack) : CSong :=
  { strArtistDesc :=
      if track.strArtist = "" ∧ doc.m_strArtist ≠ "" then doc.m_strArtist
      else track.strArtist,
    strAlbum := doc.m_strAlbum,
    iTrack :=
      if doc.m_iDiscNumber > 0 then Int.lor track.iTrackNumber (doc.m_iDiscNumber * 65536)
      else track.iTrackNumber,
    strTitle :=
      if track.strTitle = "" then trackLabel track.iTrackNumber else track.strTitle,
    strFileName := track.strFile,
    iStartOffset := track.iStartTime,
    iEndOffset := track.iEndTime,
    iDuration :=
      if track.iEndTime ≠ 0 then roundMilliSecsToSecs (track.iEndTime - track.iStartTime)
      else 0 }

/-- Embedding of `CCueDocument::GetSongs`: materialises every track. -/
def CCueDocument.GetSongs (doc : CCueDocument) : List CSong :=
  doc.m_tracks.map (songOfTrack doc)

/-- A concrete trivial environment for closed computations (the identity
charset conversion, trivial path helpers, an empty filesystem). -/
def idEnv : Env :=
  { conv := id, getDirectory := fun _ => "", getFileName := id,
    addFileToFolder := fun a b => a ++ b, fileExists := fun _ => false,
    dirItems := fun _ => [], isPath := fun _ _ => false }

/-- True when no `TRACK` directive occurs before the first `FILE` directive
(the layout of every ordinary CUE sheet, which opens with `FILE`). -/
def fileBeforeTrack : List String → Bool
  | [] => true
  | l :: ls =>
    if startsWithNoCase l "FILE" then true
    else if startsWithNoCase l "TRACK" then false
    else fileBeforeTrack ls

/-- The example sheet from the documentation header of `CueDocument.cpp`, as
the trimmed non-blank lines a reader yields. -/
def exampleSheetLines : List String :=
  ["PERFORMER \"Pink Floyd\"",
   "TITLE \"The Dark Side Of The Moon\"",
   "FILE \"The Dark Side Of The Moon.mp3\" WAVE",
   "TRACK 01 AUDIO",
   "TITLE \"Speak To Me / Breathe\"",
   "PERFORMER \"Pink Floyd\"",
   "INDEX 00 00:00:00",
   "INDEX 01 00:00:32",
   "TRACK 02 AUDIO",
   "TITLE \"On The Run\"",
   "PERFORMER \"Pink Floyd\"",
   "INDEX 00 03:58:72",
   "INDEX 01 04:00:72",
   "TRACK 03 AUDIO",
   "TITLE \"Time\"",
   "PERFORMER \"Pink Floyd\"",
   "INDEX 00 07:31:70",
   "INDEX 01 07:33:70"]

/-- Adjacency property of the claim: an earlier track's end offset is the later
track's start offset when they share a source file, else 0. -/
def pairOK (x y : CCueTrack) : Prop :=
  x.iEndTime = if x.strFile = y.strFile then y.iStartTime else 0

/-- Invariant of the parse loop on the reversed track list (given that every
`FILE` directive stores a non-empty current file and the first `TRACK` comes
after a `FILE`): the open track's file is the current file unless the
file-changed flag is set, the open track's end time is untouched, and all
closed adjacent pairs satisfy `pairOK`. -/
structure StInv (st : LoopSt) (rev : List CCueTrack) : Prop where
  curNE : rev ≠ [] → st.strCurrentFile ≠ ""
  headFile : ∀ t, rev.head? = some t →
    t.strFile = st.strCurrentFile ∨ st.bCurrentFileChanged = true
  headEnd : ∀ t, rev.head? = some t → t.iEndTime = 0
  chain : List.Chain' (fun a b => pairOK b a) rev

end CueDoc

namespace CueDoc

/-- Document part of a loop result (observable on both exits). -/
def LoopRes.docOf : LoopRes → CCueDocument
  | .fail d => d
  | .done d _ _ => d

/-- True when two directive keywords disagree (case-insensitively) in their
first character, so no line can begin with both. -/
def headsDiffer (p q : String) : Bool :=
  match p.data, q.data with
  | cp :: _, cq :: _ => !(lowerChar cp = lowerChar cq)
  | _, _ => false

/-- True when two directive keywords agree-or-not in the first character but
disagree in the second, so no line can begin with both. -/
def secondDiffer (p q : String) : Bool :=
  match p.data, q.data with
  | _ :: cp :: _, _ :: cq :: _ => !(lowerChar cp = lowerChar cq)
  | _, _ => false

/-- Shape similarity used for the metadata branches of `parseStep`: the track
list keeps its tail and the head keeps its file, start and end fields. -/
def revSim : List CCueTrack → List CCueTrack → Prop
  | [], [] => True
  | t :: rest, t' :: rest' =>
    (t'.strFile = t.strFile ∧ t'.iStartTime = t.iStartTime ∧ t'.iEndTime = t.iEndTime) ∧
      rest' = rest
  | _, _ => False

theorem swnc_head_eq {c : Char} {cs ps : List Char} {p : Char}
    (h : swnc (c :: cs) (p :: ps) = true) :
    lowerChar c = lowerChar p ∧ swnc cs ps = true := by
  rw [swnc] at h
  split at h
  · exact ⟨by assumption, h⟩
  · exact absurd h (by simp)

theorem swnc_ne_head {c : Char} {cs ps : List Char} {p : Char}
    (h : ¬ lowerChar c = lowerChar p) : swnc (c :: cs) (p :: ps) = false := by
  simp [swnc, h]

theorem swnc_ne_second {c1 c2 p1 p2 : Char} {cs ps : List Char}
    (h : ¬ lowerChar c2 = lowerChar p2) :
    swnc (c1 :: c2 :: cs) (p1 :: p2 :: ps) = false := by
  rw [swnc]
  split
  · exact swnc_ne_head h
  · rfl

theorem swnc_excl {cs pd qd : List Char}
    (hd : (match pd, qd with
           | cp :: _, cq :: _ => ¬ lowerChar cp = lowerChar cq
           | _, _ => False) ∨
          (match pd, qd with
           | _ :: cp :: _, _ :: cq :: _ => ¬ lowerChar cp = lowerChar cq
           | _, _ => False))
    (h : swnc cs pd = true) : swnc cs qd = false := by
  match pd, qd with
  | [], _ => rcases hd with h1 | h1 <;> exact absurd h1 (by simp)
  | _ :: _, [] => rcases hd with h1 | h1 <;> exact absurd h1 (by simp)
  | cp :: pd', cq :: qd' =>
    rcases hd with h1 | h1
    · match cs with
      | [] => exact absurd h (by simp [swnc])
      | c :: cs' =>
        obtain ⟨hc, -⟩ := swnc_head_eq h
        exact swnc_ne_head (by rw [hc]; exact h1)
    · match pd', qd' with
      | [], _ => exact absurd h1 (by simp)
      | _ :: _, [] => exact absurd h1 (by simp)
      | cp2 :: pd'', cq2 :: qd'' =>
        match cs with
        | [] => exact absurd h (by simp [swnc])
        | [c] =>
          obtain ⟨-, h2⟩ := swnc_head_eq h
          exact absurd h2 (by simp [swnc])
        | c1 :: c2 :: cs' =>
          obtain ⟨-, h2⟩ := swnc_head_eq h
          obtain ⟨hc2, -⟩ := swnc_head_eq h2
          exact swnc_ne_second (by rw [hc2]; exact h1)

/-- Exclusion principle for the directive dispatch: a line beginning with one
keyword cannot begin with another whose first or second character differs. -/
theorem startsWithNoCase_excl {l p q : String}
    (hd : headsDiffer p q = true ∨ secondDiffer p q = true)
    (h : startsWithNoCase l p = true) : startsWithNoCase l q = false := by
  unfold startsWithNoCase at h ⊢
  unfold headsDiffer secondDiffer at hd
  refine swnc_excl ?_ h
  rcases hd with h1 | h1
  · left
    revert h1
    match p.data, q.data with
    | [], _ => simp
    | _ :: _, [] => simp
    | cp :: _, cq :: _ => simp
  · right
    revert h1
    match p.data, q.data with
    | [], _ => simp
    | [_], _ => simp
    | _ :: _ :: _, [] => simp
    | _ :: _ :: _, [_] => simp
    | _ :: cp :: _, _ :: cq :: _ => simp

end CueDoc

namespace CueDoc

theorem parseStep_index_flag {env : Env} {strFile line : String} {doc : CCueDocument}
    {st : LoopSt} {rev : List CCueTrack}
    (hIdx : startsWithNoCase line "INDEX 01" = true)
    (hfc : st.bCurrentFileChanged = true) :
    parseStep env strFile line doc st rev = none := by
  simp [parseStep, hIdx, hfc]

theorem parseStep_index_badTime {env : Env} {strFile line : String} {doc : CCueDocument}
    {st : LoopSt} {rev : List CCueTrack}
    (hIdx : startsWithNoCase line "INDEX 01" = true)
    (hfc : st.bCurrentFileChanged = false)
    (ht : extractTimeFromIndex line = -1) :
    parseStep env strFile line doc st rev = none := by
  simp [parseStep, hIdx, hfc, ht]

theorem parseStep_index_ok {env : Env} {strFile line : String} {doc : CCueDocument}
    {st : LoopSt} {rev : List CCueTrack}
    (hIdx : startsWithNoCase line "INDEX 01" = true)
    (hfc : st.bCurrentFileChanged = false)
    (ht : ¬ extractTimeFromIndex line = -1) :
    parseStep env strFile line doc st rev =
      some (doc, st, applyIndexTime (extractTimeFromIndex line) st.strCurrentFile rev) := by
  simp [parseStep, hIdx, hfc, ht]

theorem parseStep_track {env : Env} {strFile line : String} {doc : CCueDocument}
    {st : LoopSt} {rev : List CCueTrack}
    (hTrk : startsWithNoCase line "TRACK" = true) :
    parseStep env strFile line doc st rev =
      some (doc, { st with bCurrentFileChanged := false },
        { strFile := st.strCurrentFile,
          iTrackNumber :=
            if extractNumericInfo (strDrop line 5) > 0 then extractNumericInfo (strDrop line 5)
            else (rev.length : Int) + 1 } :: rev) := by
  have h1 := startsWithNoCase_excl (p := "TRACK") (q := "INDEX 01") (Or.inl (by decide)) hTrk
  have h2 := startsWithNoCase_excl (p := "TRACK") (q := "TITLE") (Or.inr (by decide)) hTrk
  have h3 := startsWithNoCase_excl (p := "TRACK") (q := "PERFORMER") (Or.inl (by decide)) hTrk
  simp [parseStep, h1, h2, h3, hTrk]

theorem parseStep_file {env : Env} {strFile line : String} {doc : CCueDocument}
    {st : LoopSt} {rev : List CCueTrack}
    (hFile : startsWithNoCase line "FILE" = true) :
    parseStep env strFile line doc st rev =
      some (doc,
        { strCurrentFile := fileDirectiveValue env strFile line,
          bCurrentFileChanged :=
            if st.strCurrentFile = "" then st.bCurrentFileChanged else true,
          numberFiles := st.numberFiles + 1 }, rev) := by
  have h1 := startsWithNoCase_excl (p := "FILE") (q := "INDEX 01") (Or.inl (by decide)) hFile
  have h2 := startsWithNoCase_excl (p := "FILE") (q := "TITLE") (Or.inl (by decide)) hFile
  have h3 := startsWithNoCase_excl (p := "FILE") (q := "PERFORMER") (Or.inl (by decide)) hFile
  have h4 := startsWithNoCase_excl (p := "FILE") (q := "TRACK") (Or.inl (by decide)) hFile
  have h5 := startsWithNoCase_excl (p := "FILE") (q := "REM DISCNUMBER") (Or.inl (by decide)) hFile
  simp only [parseStep, h1, h2, h3, h4, h5, hFile, Bool.false_eq_true, if_false, if_true]

set_option maxHeartbeats 2000000 in
theorem parseStep_meta {env : Env} {strFile line : String} {doc : CCueDocument}
    {st : LoopSt} {rev : List CCueTrack}
    (h1 : startsWithNoCase line "INDEX 01" = false)
    (h2 : startsWithNoCase line "TRACK" = false)
    (h3 : startsWithNoCase line "FILE" = false) :
    ∃ d' rev', parseStep env strFile line doc st rev = some (d', st, rev') ∧
      d'.m_bOneFilePerTrack = doc.m_bOneFilePerTrack ∧ revSim rev rev' := by
  cases rev with
  | nil =>
    simp only [parseStep, h1, h2, h3, Bool.false_eq_true, if_false]
    split_ifs <;> exact ⟨_, _, rfl, rfl, trivial⟩
  | cons t rest =>
    simp only [parseStep, h1, h2, h3, Bool.false_eq_true, if_false]
    split_ifs <;> exact ⟨_, _, rfl, rfl, ⟨rfl, rfl, rfl⟩, rfl⟩

end CueDoc

namespace CueDoc

theorem applyIndexTime_length (time : Int) (cur : String) (rev : List CCueTrack) :
    (applyIndexTime time cur rev).length = rev.length := by
  match rev with
  | [] => rfl
  | [last] => rfl
  | last :: prev :: rest =>
    rw [applyIndexTime]
    split <;> simp

theorem revSim_length {a b : List CCueTrack} (h : revSim a b) : b.length = a.length := by
  match a, b with
  | [], [] => rfl
  | t :: rest, t' :: rest' => simp [h.2]
  | [], _ :: _ => exact absurd h (by simp [revSim])
  | _ :: _, [] => exact absurd h (by simp [revSim])

theorem parseStep_flag {env : Env} {strFile line : String} {doc d' : CCueDocument}
    {st st' : LoopSt} {rev rev' : List CCueTrack}
    (h : parseStep env strFile line doc st rev = some (d', st', rev')) :
    d'.m_bOneFilePerTrack = doc.m_bOneFilePerTrack := by
  by_cases hI : startsWithNoCase line "INDEX 01" = true
  · by_cases hfc : st.bCurrentFileChanged = true
    · rw [parseStep_index_flag hI hfc] at h; exact absurd h (by simp)
    · rw [Bool.not_eq_true] at hfc
      by_cases ht : extractTimeFromIndex line = -1
      · rw [parseStep_index_badTime hI hfc ht] at h; exact absurd h (by simp)
      · rw [parseStep_index_ok hI hfc ht] at h
        simp only [Option.some.injEq, Prod.mk.injEq] at h
        obtain ⟨rfl, -, -⟩ := h
        rfl
  · rw [Bool.not_eq_true] at hI
    by_cases hT : startsWithNoCase line "TRACK" = true
    · rw [parseStep_track hT] at h
      simp only [Option.some.injEq, Prod.mk.injEq] at h
      obtain ⟨rfl, -, -⟩ := h
      rfl
    · rw [Bool.not_eq_true] at hT
      by_cases hF : startsWithNoCase line "FILE" = true
      · rw [parseStep_file hF] at h
        simp only [Option.some.injEq, Prod.mk.injEq] at h
        obtain ⟨rfl, -, -⟩ := h
        rfl
      · rw [Bool.not_eq_true] at hF
        obtain ⟨d'', rev'', hstep, hflag, -⟩ :=
          @parseStep_meta env strFile line doc st rev hI hT hF
        rw [hstep] at h
        simp only [Option.some.injEq, Prod.mk.injEq] at h
        obtain ⟨rfl, -, -⟩ := h
        exact hflag

theorem parseStep_counts {env : Env} {strFile line : String} {doc d' : CCueDocument}
    {st st' : LoopSt} {rev rev' : List CCueTrack}
    (h : parseStep env strFile line doc st rev = some (d', st', rev')) :
    rev'.length = rev.length + (if startsWithNoCase line "TRACK" = true then 1 else 0) ∧
    st'.numberFiles = st.numberFiles + (if startsWithNoCase line "FILE" = true then 1 else 0) := by
  by_cases hI : startsWithNoCase line "INDEX 01" = true
  · have hT := startsWithNoCase_excl (p := "INDEX 01") (q := "TRACK") (Or.inl (by decide)) hI
    have hF := startsWithNoCase_excl (p := "INDEX 01") (q := "FILE") (Or.inl (by decide)) hI
    by_cases hfc : st.bCurrentFileChanged = true
    · rw [parseStep_index_flag hI hfc] at h; exact absurd h (by simp)
    · rw [Bool.not_eq_true] at hfc
      by_cases ht : extractTimeFromIndex line = -1
      · rw [parseStep_index_badTime hI hfc ht] at h; exact absurd h (by simp)
      · rw [parseStep_index_ok hI hfc ht] at h
        simp only [Option.some.injEq, Prod.mk.injEq] at h
        obtain ⟨-, rfl, rfl⟩ := h
        simp [applyIndexTime_length, hT, hF]
  · rw [Bool.not_eq_true] at hI
    by_cases hT : startsWithNoCase line "TRACK" = true
    · have hF := startsWithNoCase_excl (p := "TRACK") (q := "FILE") (Or.inl (by decide)) hT
      rw [parseStep_track hT] at h
      simp only [Option.some.injEq, Prod.mk.injEq] at h
      obtain ⟨-, rfl, rfl⟩ := h
      simp [hT, hF]
    · rw [Bool.not_eq_true] at hT
      by_cases hF : startsWithNoCase line "FILE" = true
      · rw [parseStep_file hF] at h
        simp only [Option.some.injEq, Prod.mk.injEq] at h
        obtain ⟨-, rfl, rfl⟩ := h
        simp [hT, hF]
      · rw [Bool.not_eq_true] at hF
        obtain ⟨d'', rev'', hstep, -, hsim⟩ :=
          @parseStep_meta env strFile line doc st rev hI hT hF
        rw [hstep] at h
        simp only [Option.some.injEq, Prod.mk.injEq] at h
        obtain ⟨-, rfl, rfl⟩ := h
        simp [revSim_length hsim, hT, hF]

theorem parseLoop_append (env : Env) (strFile : String) (l1 l2 : List String)
    (doc : CCueDocument) (st : LoopSt) (rev : List CCueTrack) :
    parseLoop env strFile (l1 ++ l2) doc st rev =
      match parseLoop env strFile l1 doc st rev with
      | .fail d => .fail d
      | .done d s r => parseLoop env strFile l2 d s r := by
  induction l1 generalizing doc st rev with
  | nil => simp [parseLoop]
  | cons line rest ih =>
    rw [List.cons_append, parseLoop, parseLoop]
    cases parseStep env strFile line doc st rev with
    | none => rfl
    | some x =>
      obtain ⟨d, s, r⟩ := x
      exact ih d s r

theorem parseLoop_flag (env : Env) (strFile : String) :
    ∀ (lines : List String) (doc : CCueDocument) (st : LoopSt) (rev : List CCueTrack),
    ((parseLoop env strFile lines doc st rev).docOf).m_bOneFilePerTrack =
      doc.m_bOneFilePerTrack := by
  intro lines
  induction lines with
  | nil => intro doc st rev; rfl
  | cons line rest ih =>
    intro doc st rev
    rw [parseLoop]
    cases hstep : parseStep env strFile line doc st rev with
    | none => rfl
    | some x =>
      obtain ⟨d, s, r⟩ := x
      rw [ih d s r, parseStep_flag hstep]

theorem parseLoop_counts (env : Env) (strFile : String) :
    ∀ (lines : List String) (doc : CCueDocument) (st : LoopSt) (rev : List CCueTrack)
      (d' : CCueDocument) (st' : LoopSt) (rev' : List CCueTrack),
    parseLoop env strFile lines doc st rev = .done d' st' rev' →
    rev'.length = rev.length + (lines.countP fun l => startsWithNoCase l "TRACK") ∧
    st'.numberFiles = st.numberFiles + ((lines.countP fun l => startsWithNoCase l "FILE") : Int) := by
  intro lines
  induction lines with
  | nil =>
    intro doc st rev d' st' rev' h
    rw [parseLoop] at h
    cases h
    simp
  | cons line rest ih =>
    intro doc st rev d' st' rev' h
    rw [parseLoop] at h
    cases hstep : parseStep env strFile line doc st rev with
    | none => rw [hstep] at h; exact absurd h (by simp)
    | some x =>
      obtain ⟨d, s, r⟩ := x
      rw [hstep] at h
      obtain ⟨hr, hn⟩ := ih d s r d' st' rev' h
      obtain ⟨hr0, hn0⟩ := parseStep_counts hstep
      constructor
      · rw [hr, hr0, List.countP_cons]
        by_cases hT : startsWithNoCase line "TRACK" = true <;> simp [hT] <;> omega
      · rw [hn, hn0, List.countP_cons]
        by_cases hF : startsWithNoCase line "FILE" = true <;> simp [hF] <;> push_cast <;> omega

theorem parseLoop_noTrack_fail (env : Env) (strFile : String) :
    ∀ (lines : List String), (∀ l ∈ lines, startsWithNoCase l "TRACK" = false) →
    ∀ (doc : CCueDocument) (st : LoopSt) (d' : CCueDocument),
    parseLoop env strFile lines doc st [] = .fail d' → d'.m_tracks = [] := by
  intro lines
  induction lines with
  | nil =>
    intro _ doc st d' h
    rw [parseLoop] at h
    exact absurd h (by simp)
  | cons line rest ih =>
    intro hnt doc st d' h
    rw [parseLoop] at h
    cases hstep : parseStep env strFile line doc st [] with
    | none =>
      rw [hstep] at h
      cases h
      rfl
    | some x =>
      obtain ⟨d, s, r⟩ := x
      rw [hstep] at h
      have hr : r = [] := by
        have := (parseStep_counts hstep).1
        rw [hnt line (by simp)] at this
        simpa using this
      rw [hr] at h
      exact ih (fun l hl => hnt l (by simp [hl])) d s d' h

end CueDoc

namespace CueDoc

theorem revChain_congrHead {t t' : CCueTrack} {rest : List CCueTrack}
    (hf : t'.strFile = t.strFile) (hs : t'.iStartTime = t.iStartTime)
    (h : List.Chain' (fun a b => pairOK b a) (t :: rest)) :
    List.Chain' (fun a b => pairOK b a) (t' :: rest) := by
  cases rest with
  | nil => exact List.chain'_singleton t'
  | cons c cs =>
    rw [List.chain'_cons] at h ⊢
    refine ⟨?_, h.2⟩
    show pairOK c t'
    unfold pairOK
    rw [hf, hs]
    exact h.1

theorem StInv_index {st : LoopSt} {rev : List CCueTrack} {time : Int}
    (hfc : st.bCurrentFileChanged = false) (hinv : StInv st rev) :
    StInv st (applyIndexTime time st.strCurrentFile rev) := by
  match rev with
  | [] => exact hinv
  | [a] =>
    rw [applyIndexTime]
    refine ⟨fun _ => hinv.curNE (by simp), ?_, ?_, List.chain'_singleton _⟩
    · intro t ht
      simp only [List.head?_cons, Option.some.injEq] at ht
      subst ht
      exact hinv.headFile a rfl
    · intro t ht
      simp only [List.head?_cons, Option.some.injEq] at ht
      subst ht
      exact hinv.headEnd a rfl
  | a :: b :: rest =>
    have hafile : a.strFile = st.strCurrentFile := by
      rcases hinv.headFile a rfl with h | h
      · exact h
      · rw [hfc] at h; exact absurd h (by simp)
    have haend : a.iEndTime = 0 := hinv.headEnd a rfl
    have hchain := hinv.chain
    rw [List.chain'_cons] at hchain
    rw [applyIndexTime]
    by_cases hpb : b.strFile = st.strCurrentFile
    · rw [if_pos hpb]
      refine ⟨fun _ => hinv.curNE (by simp), ?_, ?_, ?_⟩
      · intro t ht
        simp only [List.head?_cons, Option.some.injEq] at ht
        subst ht
        exact Or.inl hafile
      · intro t ht
        simp only [List.head?_cons, Option.some.injEq] at ht
        subst ht
        exact haend
      · rw [List.chain'_cons]
        constructor
        · show pairOK _ _
          unfold pairOK
          have : b.strFile = a.strFile := by rw [hpb, hafile]
          simp [this]
        · exact revChain_congrHead (t := b) rfl rfl hchain.2
    · rw [if_neg hpb]
      refine ⟨fun _ => hinv.curNE (by simp), ?_, ?_, ?_⟩
      · intro t ht
        simp only [List.head?_cons, Option.some.injEq] at ht
        subst ht
        exact Or.inl hafile
      · intro t ht
        simp only [List.head?_cons, Option.some.injEq] at ht
        subst ht
        exact haend
      · rw [List.chain'_cons]
        constructor
        · show pairOK _ _
          unfold pairOK
          have hne : ¬ b.strFile = a.strFile := by rw [hafile]; exact hpb
          rw [if_neg hne]
          have := hchain.1
          unfold pairOK at this
          rw [if_neg (by rw [hafile]; exact hpb)] at this
          exact this
        · exact hchain.2

theorem StInv_track {st : LoopSt} {rev : List CCueTrack} {n : Int}
    (hc : rev = [] → ¬ st.strCurrentFile = "") (hinv : StInv st rev) :
    StInv { st with bCurrentFileChanged := false }
      ({ strFile := st.strCurrentFile, iTrackNumber := n } :: rev) := by
  refine ⟨?_, ?_, ?_, ?_⟩
  · intro _
    cases rev with
    | nil => exact hc rfl
    | cons a rest => exact hinv.curNE (by simp)
  · intro t ht
    simp only [List.head?_cons, Option.some.injEq] at ht
    subst ht
    exact Or.inl rfl
  · intro t ht
    simp only [List.head?_cons, Option.some.injEq] at ht
    subst ht
    rfl
  · cases rev with
    | nil => exact List.chain'_singleton _
    | cons a rest =>
      rw [List.chain'_cons]
      refine ⟨?_, hinv.chain⟩
      show pairOK _ _
      unfold pairOK
      simp [hinv.headEnd a rfl]

theorem StInv_file {st : LoopSt} {rev : List CCueTrack} {val : String}
    (hval : ¬ val = "") (hinv : StInv st rev) :
    StInv { strCurrentFile := val,
            bCurrentFileChanged :=
              if st.strCurrentFile = "" then st.bCurrentFileChanged else true,
            numberFiles := st.numberFiles + 1 } rev := by
  refine ⟨fun _ => hval, ?_, hinv.headEnd, hinv.chain⟩
  intro t ht
  cases rev with
  | nil => exact absurd ht (by simp)
  | cons a rest =>
    right
    have hcur := hinv.curNE (by simp)
    simp only [if_neg hcur]

theorem StInv_meta {st : LoopSt} {rev rev' : List CCueTrack}
    (hsim : revSim rev rev') (hinv : StInv st rev) : StInv st rev' := by
  match rev, rev' with
  | [], [] => exact hinv
  | [], _ :: _ => exact absurd hsim (by simp [revSim])
  | _ :: _, [] => exact absurd hsim (by simp [revSim])
  | t :: rest, t' :: rest' =>
    obtain ⟨⟨hf, hs, he⟩, rfl⟩ := hsim
    refine ⟨fun _ => hinv.curNE (by simp), ?_, ?_, ?_⟩
    · intro u hu
      simp only [List.head?_cons, Option.some.injEq] at hu
      subst hu
      rw [hf]
      exact hinv.headFile t rfl
    · intro u hu
      simp only [List.head?_cons, Option.some.injEq] at hu
      subst hu
      rw [he]
      exact hinv.headEnd t rfl
    · exact revChain_congrHead hf hs hinv.chain

end CueDoc

namespace CueDoc

theorem fileBeforeTrack_cons_step {l : String} {ls : List String}
    (h : fileBeforeTrack (l :: ls) = true)
    (h1 : startsWithNoCase l "FILE" = false)
    (h2 : startsWithNoCase l "TRACK" = false) : fileBeforeTrack ls = true := by
  rw [fileBeforeTrack, h1, h2] at h
  simpa using h

theorem fileBeforeTrack_cons_track {l : String} {ls : List String}
    (h : fileBeforeTrack (l :: ls) = true)
    (ht : startsWithNoCase l "TRACK" = true) : False := by
  have hf := startsWithNoCase_excl (p := "TRACK") (q := "FILE") (Or.inl (by decide)) ht
  rw [fileBeforeTrack, hf, ht] at h
  simp at h

theorem parseLoop_StInv (env : Env) (strFile : String) :
    ∀ (lines : List String) (doc : CCueDocument) (st : LoopSt) (rev : List CCueTrack),
    (∀ l ∈ lines, startsWithNoCase l "FILE" = true → ¬ fileDirectiveValue env strFile l = "") →
    (rev = [] → st.strCurrentFile = "" → fileBeforeTrack lines = true) →
    StInv st rev →
    ∀ (d' : CCueDocument) (st' : LoopSt) (rev' : List CCueTrack),
    parseLoop env strFile lines doc st rev = .done d' st' rev' → StInv st' rev' := by
  intro lines
  induction lines with
  | nil =>
    intro doc st rev _ _ hinv d' st' rev' h
    rw [parseLoop] at h
    cases h
    exact hinv
  | cons line rest ih =>
    intro doc st rev hF hO hinv d' st' rev' h
    rw [parseLoop] at h
    by_cases hI : startsWithNoCase line "INDEX 01" = true
    · by_cases hfc : st.bCurrentFileChanged = true
      · rw [parseStep_index_flag hI hfc] at h
        exact absurd h (by simp)
      · rw [Bool.not_eq_true] at hfc
        by_cases htm : extractTimeFromIndex line = -1
        · rw [parseStep_index_badTime hI hfc htm] at h
          exact absurd h (by simp)
        · rw [parseStep_index_ok hI hfc htm] at h
          refine ih _ _ _ (fun l hl => hF l (by simp [hl])) ?_ (StInv_index hfc hinv)
            d' st' rev' h
          intro hrev hcur
          have hrevnil : rev = [] := by
            have := applyIndexTime_length (extractTimeFromIndex line) st.strCurrentFile rev
            rw [hrev] at this
            exact List.length_eq_zero.mp this.symm
          have hfile := startsWithNoCase_excl (p := "INDEX 01") (q := "FILE") (Or.inl (by decide)) hI
          have htrk := startsWithNoCase_excl (p := "INDEX 01") (q := "TRACK") (Or.inl (by decide)) hI
          exact fileBeforeTrack_cons_step (hO hrevnil hcur) hfile htrk
    · rw [Bool.not_eq_true] at hI
      by_cases hT : startsWithNoCase line "TRACK" = true
      · rw [parseStep_track hT] at h
        have hc : rev = [] → ¬ st.strCurrentFile = "" := by
          intro hrev hcur
          exact fileBeforeTrack_cons_track (hO hrev hcur) hT
        refine ih _ _ _ (fun l hl => hF l (by simp [hl])) ?_ (StInv_track hc hinv)
          d' st' rev' h
        intro hrev _
        exact absurd hrev (by simp)
      · rw [Bool.not_eq_true] at hT
        by_cases hFl : startsWithNoCase line "FILE" = true
        · rw [parseStep_file hFl] at h
          have hval := hF line (by simp) hFl
          refine ih _ _ _ (fun l hl => hF l (by simp [hl])) ?_ (StInv_file hval hinv)
            d' st' rev' h
          intro _ hcur
          exact absurd hcur hval
        · rw [Bool.not_eq_true] at hFl
          obtain ⟨d'', rev'', hstep, -, hsim⟩ :=
            @parseStep_meta env strFile line doc st rev hI hT hFl
          rw [hstep] at h
          refine ih _ _ _ (fun l hl => hF l (by simp [hl])) ?_ (StInv_meta hsim hinv)
            d' st' rev' h
          intro hrev hcur
          have hrevnil : rev = [] := by
            have := revSim_length hsim
            rw [hrev] at this
            exact List.length_eq_zero.mp this.symm
          exact fileBeforeTrack_cons_step (hO hrevnil hcur) hFl hT

end CueDoc

namespace CueDoc

theorem chain'_getElemOpt {α : Type} {R : α → α → Prop} {l : List α}
    (h : List.Chain' R l) :
    ∀ (i : Nat) (a b : α), l[i]? = some a → l[i + 1]? = some b → R a b := by
  induction l with
  | nil => intro i a b ha; simp at ha
  | cons x xs ih =>
    intro i a b ha hb
    cases i with
    | zero =>
      rw [List.getElem?_cons_zero] at ha
      cases ha
      rw [List.getElem?_cons_succ] at hb
      cases xs with
      | nil => simp at hb
      | cons y ys =>
        rw [List.getElem?_cons_zero] at hb
        cases hb
        exact (List.chain'_cons.mp h).1
    | succ n =>
      rw [List.getElem?_cons_succ] at ha hb
      exact ih h.tail n a b ha hb

/-- Corrected form of the track-offset invariant.  Under the hypotheses that
every `FILE` directive stores a non-empty current file and that no `TRACK`
precedes the first `FILE` (the layout of ordinary sheets), a successful parse
leaves, for every track `n` that is not the last: end offset of `n` equal to
the start offset (the INDEX-01 timestamp) of track `n+1` when the two tracks
share a source file, and 0 when their files differ; the last track's end
offset is always 0. -/
theorem C1_track_end_offsets (env : Env) (doc : CCueDocument) (lines : List String)
    (strFile : String)
    (hF : ∀ l ∈ lines, startsWithNoCase l "FILE" = true →
      ¬ fileDirectiveValue env strFile l = "")
    (hO : fileBeforeTrack lines = true)
    (hs : (CCueDocument.Parse env doc true lines strFile).fst = true) :
    (∀ (i : Nat) (a b : CCueTrack),
      (CCueDocument.Parse env doc true lines strFile).snd.m_tracks[i]? = some a →
      (CCueDocument.Parse env doc true lines strFile).snd.m_tracks[i + 1]? = some b →
      a.iEndTime = if a.strFile = b.strFile then b.iStartTime else 0) ∧
    (∀ t : CCueTrack,
      (CCueDocument.Parse env doc true lines strFile).snd.m_tracks.getLast? = some t →
      t.iEndTime = 0) := by
  cases hres : parseLoop env strFile lines doc.Clear {} [] with
  | fail d =>
    rw [CCueDocument.Parse] at hs
    simp only [Bool.not_true, Bool.false_eq_true, if_false, hres] at hs
  | done d st rev =>
    have hinv0 : StInv ({} : LoopSt) ([] : List CCueTrack) :=
      ⟨fun h => absurd rfl h, fun t ht => by simp at ht, fun t ht => by simp at ht,
        List.chain'_nil⟩
    have hinv := parseLoop_StInv env strFile lines doc.Clear {} [] hF
      (fun _ _ => hO) hinv0 d st rev hres
    cases rev with
    | nil =>
      rw [CCueDocument.Parse] at hs
      simp only [Bool.not_true, Bool.false_eq_true, if_false, hres] at hs
      simp at hs
    | cons t rest =>
      have htracks : (CCueDocument.Parse env doc true lines strFile).snd.m_tracks =
          ({ t with iEndTime := 0 } :: rest).reverse := by
        rw [CCueDocument.Parse]
        simp only [Bool.not_true, Bool.false_eq_true, if_false, hres]
        rw [apply_ite CCueDocument.m_tracks]
        simp
      have hchain' : List.Chain' (fun a b => pairOK b a) ({ t with iEndTime := 0 } :: rest) :=
        revChain_congrHead (t := t) rfl rfl hinv.chain
      have hchain : List.Chain' pairOK (({ t with iEndTime := 0 } :: rest).reverse) :=
        List.chain'_reverse.mpr hchain'
      constructor
      · intro i a b ha hb
        rw [htracks] at ha hb
        exact chain'_getElemOpt hchain i a b ha hb
      · intro u hu
        rw [htracks, List.getLast?_reverse] at hu
        rw [List.head?_cons] at hu
        cases hu
        rfl

/-- Witness: the amended C1 theorem applied to a concrete two-track sheet on a
single file, giving end(track 1) = start(track 2) = 1000 ms and the last
track's end offset 0. -/
theorem C1_track_end_offsets_witness :
    ((⟨"", "", "a", 1, 426, 1000, {}⟩ : CCueTrack).iEndTime =
      if (⟨"", "", "a", 1, 426, 1000, {}⟩ : CCueTrack).strFile =
         (⟨"", "", "a", 2, 1000, 0, {}⟩ : CCueTrack).strFile
      then (⟨"", "", "a", 2, 1000, 0, {}⟩ : CCueTrack).iStartTime else 0) ∧
    (⟨"", "", "a", 2, 1000, 0, {}⟩ : CCueTrack).iEndTime = 0 := by
  have h := C1_track_end_offsets idEnv {}
    ["FILE \"a\"", "TRACK 01", "INDEX 01 00:00:32", "TRACK 02", "INDEX 01 00:01:00"] ""
    (by decide) (by decide) (by decide)
  exact ⟨h.1 0 _ _ (by decide) (by decide), h.2 _ (by decide)⟩

/-- Counterexample to C1 as stated: in this successfully parsed sheet the two
tracks carry the same stored source file (both empty), yet track 1's end
offset is 0 while track 2's INDEX-01 timestamp (start offset) is 2000 ms —
the code keys the end-offset update on its current-file cursor, which here
differs from the stored file. -/
theorem C1_counterexample :
    (CCueDocument.Parse idEnv {} true
      ["TRACK 01", "INDEX 01 00:00:00", "TRACK 02", "FILE \"b\"", "INDEX 01 00:02:00"]
      "").fst = true ∧
    ((CCueDocument.Parse idEnv {} true
      ["TRACK 01", "INDEX 01 00:00:00", "TRACK 02", "FILE \"b\"", "INDEX 01 00:02:00"]
      "").snd.m_tracks.map fun t => (t.strFile, t.iStartTime, t.iEndTime))
      = [("", 0, 0), ("", 2000, 0)] ∧
    ¬ (∀ (a b : CCueTrack),
        (CCueDocument.Parse idEnv {} true
          ["TRACK 01", "INDEX 01 00:00:00", "TRACK 02", "FILE \"b\"", "INDEX 01 00:02:00"]
          "").snd.m_tracks[0]? = some a →
        (CCueDocument.Parse idEnv {} true
          ["TRACK 01", "INDEX 01 00:00:00", "TRACK 02", "FILE \"b\"", "INDEX 01 00:02:00"]
          "").snd.m_tracks[1]? = some b →
        a.iEndTime = if a.strFile = b.strFile then b.iStartTime else 0) := by
  refine ⟨by decide, by decide, fun hall => ?_⟩
  have h := hall ⟨"", "", "", 1, 0, 0, {}⟩ ⟨"", "", "", 2, 2000, 0, {}⟩ (by decide) (by decide)
  exact absurd h (by decide)

end CueDoc

namespace CueDoc

/-- Amended C2: a failed parse is not atomic in general (see
`C2_counterexample`), but when the input contains no `TRACK` directive the
parse fails and the document holds no tracks, so `IsLoaded()` is false. -/
theorem C2_no_track_failure (env : Env) (doc : CCueDocument) (lines : List String)
    (strFile : String)
    (h : ∀ l ∈ lines, startsWithNoCase l "TRACK" = false) :
    (CCueDocument.Parse env doc true lines strFile).fst = false ∧
    (CCueDocument.Parse env doc true lines strFile).snd.IsLoaded = false := by
  cases hres : parseLoop env strFile lines doc.Clear {} [] with
  | fail d =>
    have htr : d.m_tracks = [] := parseLoop_noTrack_fail env strFile lines h doc.Clear {} d hres
    rw [CCueDocument.Parse]
    simp only [Bool.not_true, Bool.false_eq_true, if_false, hres]
    constructor
    · simp
    · simp [CCueDocument.IsLoaded, htr]
  | done d st rev =>
    have hrev : rev = [] := by
      have := (parseLoop_counts env strFile lines doc.Clear {} [] d st rev hres).1
      rw [List.countP_eq_zero.mpr fun a ha => by rw [h a ha]; simp] at this
      simpa using this
    subst hrev
    rw [CCueDocument.Parse]
    simp only [Bool.not_true, Bool.false_eq_true, if_false, hres]
    constructor
    · simp
    · rw [apply_ite CCueDocument.IsLoaded]
      simp [CCueDocument.IsLoaded]

/-- Witness: a sheet with only a TITLE line fails and is not loaded. -/
theorem C2_no_track_failure_witness :
    (CCueDocument.Parse idEnv {} true ["TITLE \"x\""] "").fst = false ∧
    (CCueDocument.Parse idEnv {} true ["TITLE \"x\""] "").snd.IsLoaded = false :=
  C2_no_track_failure idEnv {} ["TITLE \"x\""] "" (by decide)

/-- Counterexample to C2 as stated: a cross-file track split aborts the parse
(`Parse` returns false), yet the already-pushed track remains in the
document, so `IsLoaded()` observes a partially built sheet. -/
theorem C2_counterexample :
    (CCueDocument.Parse idEnv {} true
      ["FILE \"a\"", "TRACK 01", "FILE \"b\"", "INDEX 01 00:00:00"] "").fst = false ∧
    (CCueDocument.Parse idEnv {} true
      ["FILE \"a\"", "TRACK 01", "FILE \"b\"", "INDEX 01 00:00:00"] "").snd.IsLoaded
      = true := by
  constructor <;> decide

/-- Confirmed C3: whenever the parse loop has reached a state with the
file-changed flag set and the next line is an `INDEX 01` directive, the whole
parse fails, returning `false` together with the document exactly as it stood
before that line — no start or end time is assigned for it. -/
theorem C3_crossfile_index_fails (env : Env) (strFile : String) (doc : CCueDocument)
    (pre : List String) (line : String) (suf : List String)
    (d : CCueDocument) (st : LoopSt) (rev : List CCueTrack)
    (hpre : parseLoop env strFile pre doc.Clear {} [] = .done d st rev)
    (hflag : st.bCurrentFileChanged = true)
    (hidx : startsWithNoCase line "INDEX 01" = true) :
    CCueDocument.Parse env doc true (pre ++ line :: suf) strFile =
      (false, { d with m_tracks := rev.reverse }) := by
  have hfail : parseLoop env strFile (line :: suf) d st rev =
      .fail { d with m_tracks := rev.reverse } := by
    rw [parseLoop, parseStep_index_flag hidx hflag]
  have happ : parseLoop env strFile (pre ++ line :: suf) doc.Clear {} [] =
      .fail { d with m_tracks := rev.reverse } := by
    rw [parseLoop_append, hpre]
    exact hfail
  rw [CCueDocument.Parse]
  simp only [Bool.not_true, Bool.false_eq_true, if_false, happ]

/-- Witness: concrete cross-file sheet hitting the C3 failure. -/
theorem C3_crossfile_index_fails_witness :
    CCueDocument.Parse idEnv {} true
      (["FILE \"a\"", "TRACK 01", "FILE \"b\""] ++ "INDEX 01 00:00:00" :: []) "" =
      (false, { ({} : CCueDocument) with
        m_tracks := [(⟨"", "", "a", 1, 0, 0, {}⟩ : CCueTrack)].reverse }) :=
  C3_crossfile_index_fails idEnv "" {} ["FILE \"a\"", "TRACK 01", "FILE \"b\""]
    "INDEX 01 00:00:00" [] {} ⟨"b", true, 1⟩ [⟨"", "", "a", 1, 0, 0, {}⟩]
    (by decide) rfl (by decide)

end CueDoc

namespace CueDoc

/-- Confirmed C5 (for a single parse on a document whose one-file-per-track
flag has not previously been set, cf. C10): after a successful parse,
`IsOneFilePerTrack` is true if and only if the number of `TRACK` directives
equals the number of `FILE` directives. -/
theorem C5_oneFilePerTrack_iff (env : Env) (doc : CCueDocument) (lines : List String)
    (strFile : String)
    (h0 : doc.m_bOneFilePerTrack = false)
    (hs : (CCueDocument.Parse env doc true lines strFile).fst = true) :
    ((CCueDocument.Parse env doc true lines strFile).snd.IsOneFilePerTrack = true ↔
      (lines.countP fun l => startsWithNoCase l "TRACK") =
        (lines.countP fun l => startsWithNoCase l "FILE")) := by
  cases hres : parseLoop env strFile lines doc.Clear {} [] with
  | fail d =>
    rw [CCueDocument.Parse] at hs
    simp only [Bool.not_true, Bool.false_eq_true, if_false, hres] at hs
  | done d st rev =>
    have hdflag : d.m_bOneFilePerTrack = false := by
      have := parseLoop_flag env strFile lines doc.Clear {} []
      rw [hres] at this
      simpa [LoopRes.docOf, CCueDocument.Clear, h0] using this
    obtain ⟨hlen, hnum⟩ := parseLoop_counts env strFile lines doc.Clear {} [] d st rev hres
    simp only [List.length_nil, Nat.zero_add, List.length_cons] at hlen
    have hnum' : st.numberFiles =
        -1 + ((lines.countP fun l => startsWithNoCase l "FILE") : Int) := by
      simpa using hnum
    cases rev with
    | nil =>
      rw [CCueDocument.Parse] at hs
      simp only [Bool.not_true, Bool.false_eq_true, if_false, hres] at hs
      simp at hs
    | cons t rest =>
      simp only [List.length_cons] at hlen
      rw [CCueDocument.Parse]
      simp only [Bool.not_true, Bool.false_eq_true, if_false, hres]
      rw [apply_ite CCueDocument.IsOneFilePerTrack]
      unfold CCueDocument.IsOneFilePerTrack
      by_cases hc : ((({ t with iEndTime := 0 } :: rest : List CCueTrack).length : Int) - 1
          = st.numberFiles)
      · rw [if_pos hc]
        simp only [true_iff]
        rw [hnum'] at hc
        simp only [List.length_cons] at hc
        omega
      · rw [if_neg hc]
        simp only [hdflag, Bool.false_eq_true, false_iff]
        intro hcnt
        apply hc
        rw [hnum']
        simp only [List.length_cons]
        omega

/-- Witness: one file, one track — the flag is reported true and the counts
agree. -/
theorem C5_oneFilePerTrack_iff_witness :
    ((CCueDocument.Parse idEnv {} true
      ["FILE \"a\"", "TRACK 01", "INDEX 01 0:0:0"] "").snd.IsOneFilePerTrack = true ↔
      ((["FILE \"a\"", "TRACK 01", "INDEX 01 0:0:0"] : List String).countP
          fun l => startsWithNoCase l "TRACK") =
        ((["FILE \"a\"", "TRACK 01", "INDEX 01 0:0:0"] : List String).countP
          fun l => startsWithNoCase l "FILE")) :=
  C5_oneFilePerTrack_iff idEnv {} ["FILE \"a\"", "TRACK 01", "INDEX 01 0:0:0"] ""
    rfl (by decide)

end CueDoc

namespace CueDoc

/-- Amended C6: Parse succeeds iff the line loop runs to completion having
opened at least one track (a mid-parse failure can occur even after a TRACK
directive, see `C6_counterexample`); an input with zero TRACK directives
fails and yields no tracks; and on every success the track sequence is
non-empty. -/
theorem C6_success_iff_tracks (env : Env) (doc : CCueDocument) (lines : List String)
    (strFile : String) :
    ((CCueDocument.Parse env doc true lines strFile).fst = true ↔
      ∃ d st rev, parseLoop env strFile lines doc.Clear {} [] = .done d st rev ∧ rev ≠ []) ∧
    ((∀ l ∈ lines, startsWithNoCase l "TRACK" = false) →
      (CCueDocument.Parse env doc true lines strFile).fst = false ∧
      (CCueDocument.Parse env doc true lines strFile).snd.m_tracks = []) ∧
    ((CCueDocument.Parse env doc true lines strFile).fst = true →
      (CCueDocument.Parse env doc true lines strFile).snd.m_tracks ≠ []) := by
  refine ⟨?_, ?_, ?_⟩
  · cases hres : parseLoop env strFile lines doc.Clear {} [] with
    | fail d =>
      rw [CCueDocument.Parse]
      simp only [Bool.not_true, Bool.false_eq_true, if_false, hres]
      simp
    | done d st rev =>
      rw [CCueDocument.Parse]
      simp only [Bool.not_true, Bool.false_eq_true, if_false, hres]
      cases rev with
      | nil =>
        simp only [List.isEmpty_nil, Bool.not_true, Bool.false_eq_true, false_iff]
        rintro ⟨d', st', rev', heq, hne⟩
        cases heq
        exact hne rfl
      | cons t rest =>
        simp only [List.isEmpty_cons, Bool.not_false, true_iff]
        exact ⟨d, st, t :: rest, rfl, by simp⟩
  · intro h
    cases hres : parseLoop env strFile lines doc.Clear {} [] with
    | fail d =>
      have htr : d.m_tracks = [] :=
        parseLoop_noTrack_fail env strFile lines h doc.Clear {} d hres
      rw [CCueDocument.Parse]
      simp only [Bool.not_true, Bool.false_eq_true, if_false, hres]
      exact ⟨by simp, htr⟩
    | done d st rev =>
      have hrev : rev = [] := by
        have := (parseLoop_counts env strFile lines doc.Clear {} [] d st rev hres).1
        rw [List.countP_eq_zero.mpr fun a ha => by rw [h a ha]; simp] at this
        simpa using this
      subst hrev
      rw [CCueDocument.Parse]
      simp only [Bool.not_true, Bool.false_eq_true, if_false, hres]
      constructor
      · simp
      · rw [apply_ite CCueDocument.m_tracks]
        simp
  · intro hs
    cases hres : parseLoop env strFile lines doc.Clear {} [] with
    | fail d =>
      rw [CCueDocument.Parse] at hs
      simp only [Bool.not_true, Bool.false_eq_true, if_false, hres] at hs
    | done d st rev =>
      cases rev with
      | nil =>
        rw [CCueDocument.Parse] at hs
        simp only [Bool.not_true, Bool.false_eq_true, if_false, hres] at hs
        simp at hs
      | cons t rest =>
        rw [CCueDocument.Parse]
        simp only [Bool.not_true, Bool.false_eq_true, if_false, hres]
        rw [apply_ite CCueDocument.m_tracks]
        simp

/-- Witness: on a well-formed one-track sheet, success yields a non-empty
track sequence. -/
theorem C6_success_iff_tracks_witness :
    (CCueDocument.Parse idEnv {} true
      ["FILE \"a\"", "TRACK 01", "INDEX 01 0:0:0"] "").snd.m_tracks ≠ [] :=
  (C6_success_iff_tracks idEnv {} ["FILE \"a\"", "TRACK 01", "INDEX 01 0:0:0"] "").2.2
    (by decide)

/-- Counterexample to C6 as stated: here a TRACK directive was opened (the
document still holds the track), yet Parse fails because the INDEX-01
timecode is malformed — success is not equivalent to "at least one TRACK
directive was opened". -/
theorem C6_counterexample :
    (CCueDocument.Parse idEnv {} true ["TRACK 01", "INDEX 01 0:0"] "").fst = false ∧
    (CCueDocument.Parse idEnv {} true ["TRACK 01", "INDEX 01 0:0"] "").snd.m_tracks.length
      = 1 := by
  constructor <;> decide

/-- Confirmed C10: `Clear` resets the album fields, counters, album replay
gain and track list but not the one-file-per-track flag, and a parse never
resets the flag: once true, it stays true across any further `Parse` call on
the same document. -/
theorem C10_flag_monotone (env : Env) (doc : CCueDocument) (ready : Bool)
    (lines : List String) (strFile : String) :
    (doc.Clear.m_strArtist = "" ∧ doc.Clear.m_strAlbum = "" ∧ doc.Clear.m_strGenre = "" ∧
      doc.Clear.m_iYear = 0 ∧ doc.Clear.m_iTrack = 0 ∧ doc.Clear.m_iDiscNumber = 0 ∧
      doc.Clear.m_albumReplayGain = {} ∧ doc.Clear.m_tracks = [] ∧
      doc.Clear.m_bOneFilePerTrack = doc.m_bOneFilePerTrack) ∧
    (doc.m_bOneFilePerTrack = true →
      (CCueDocument.Parse env doc ready lines strFile).snd.IsOneFilePerTrack = true) := by
  constructor
  · exact ⟨rfl, rfl, rfl, rfl, rfl, rfl, rfl, rfl, rfl⟩
  · intro h
    cases ready with
    | false =>
      rw [CCueDocument.Parse]
      simpa [CCueDocument.Clear, CCueDocument.IsOneFilePerTrack] using h
    | true =>
      cases hres : parseLoop env strFile lines doc.Clear {} [] with
      | fail d =>
        have := parseLoop_flag env strFile lines doc.Clear {} []
        rw [hres] at this
        rw [CCueDocument.Parse]
        simp only [Bool.not_true, Bool.false_eq_true, if_false, hres]
        unfold CCueDocument.IsOneFilePerTrack
        simpa [LoopRes.docOf, CCueDocument.Clear, h] using this
      | done d st rev =>
        have hd : d.m_bOneFilePerTrack = true := by
          have := parseLoop_flag env strFile lines doc.Clear {} []
          rw [hres] at this
          simpa [LoopRes.docOf, CCueDocument.Clear, h] using this
        rw [CCueDocument.Parse]
        simp only [Bool.not_true, Bool.false_eq_true, if_false, hres]
        rw [apply_ite CCueDocument.IsOneFilePerTrack]
        unfold CCueDocument.IsOneFilePerTrack
        simp [hd]

/-- Witness: a document whose flag is already true keeps reporting true even
after parsing a sheet whose FILE and TRACK counts differ. -/
theorem C10_flag_monotone_witness :
    (CCueDocument.Parse idEnv { m_bOneFilePerTrack := true } true
      ["FILE \"a\"", "FILE \"b\"", "TRACK 01", "INDEX 01 0:0:0"]
      "").snd.IsOneFilePerTrack = true :=
  (C10_flag_monotone idEnv { m_bOneFilePerTrack := true } true
    ["FILE \"a\"", "FILE \"b\"", "TRACK 01", "INDEX 01 0:0:0"] "").2 rfl

end CueDoc

namespace CueDoc

theorem not_space_of_digit {c : Char} (h : isAsciiDigit c = true) :
    isSpaceChar c = false := by
  by_contra hns
  rw [Bool.not_eq_false] at hns
  unfold isSpaceChar at hns
  rw [decide_eq_true_iff] at hns
  rcases hns with rfl | rfl | rfl | rfl | rfl | rfl <;> exact absurd h (by decide)

theorem atoi_nonneg {s : String} (h : firstIsDigit s = true) : 0 ≤ atoi s := by
  unfold firstIsDigit at h
  unfold atoi
  cases hd : s.data with
  | nil => rw [hd] at h; simp at h
  | cons c cs =>
    rw [hd] at h
    have h' : isAsciiDigit c = true := h
    have hm : ¬ c = '-' := fun hc => by rw [hc] at h'; exact absurd h' (by decide)
    have hp : ¬ c = '+' := fun hc => by rw [hc] at h'; exact absurd h' (by decide)
    rw [List.dropWhile_cons, not_space_of_digit h']
    simp only [Bool.false_eq_true, if_false, if_neg hm, if_neg hp]
    exact Int.natCast_nonneg _

/-- Confirmed C4: when the stripped remainder of an `INDEX` line splits on
`':'` into exactly three leading-digit-parsable parts `MM`/`SS`/`FF`, the
extractor returns `MM*60*1000 + SS*1000 + floor(FF*1000/75)` milliseconds;
when the split does not yield exactly three parts it returns the failure
value `-1`; and in particular `"INDEX 01 07:33:70"` gives 453933 ms. -/
theorem C4_extractTimecode :
    (∀ (idx m s f : String), indexTimeParts idx = [m, s, f] →
      firstIsDigit m = true → firstIsDigit s = true → firstIsDigit f = true →
      extractTimeFromIndex idx =
        atoi m * 60 * 1000 + atoi s * 1000 + Int.fdiv (atoi f * 1000) 75) ∧
    (∀ idx : String, (indexTimeParts idx).length ≠ 3 → extractTimeFromIndex idx = -1) ∧
    extractTimeFromIndex "INDEX 01 07:33:70" = 453933 := by
  refine ⟨?_, ?_, by decide⟩
  · intro idx m s f hp hm hs hf
    have hfd : Int.fdiv (atoi f * 1000) 75 = Int.tdiv (atoi f * 1000) 75 :=
      Int.fdiv_eq_tdiv (mul_nonneg (atoi_nonneg hf) (by norm_num)) (by norm_num)
    simp only [extractTimeFromIndex, hp, convertSecsToMilliSecs]
    rw [hfd]
    ring
  · intro idx hlen
    rcases hp : indexTimeParts idx with - | ⟨m, - | ⟨s, - | ⟨f, - | ⟨g, tl⟩⟩⟩⟩
    · simp only [extractTimeFromIndex, hp]
    · simp only [extractTimeFromIndex, hp]
    · simp only [extractTimeFromIndex, hp]
    · rw [hp] at hlen; exact absurd rfl hlen
    · simp only [extractTimeFromIndex, hp]

/-- Witness: C4 applied to a concrete well-formed and a concrete malformed
INDEX line. -/
theorem C4_extractTimecode_witness :
    extractTimeFromIndex "INDEX 01 03:05:09" =
      atoi "03" * 60 * 1000 + atoi "05" * 1000 + Int.fdiv (atoi "09" * 1000) 75 ∧
    extractTimeFromIndex "INDEX 01 0:0" = -1 :=
  ⟨C4_extractTimecode.1 "INDEX 01 03:05:09" "03" "05" "09" (by decide) (by decide)
      (by decide) (by decide),
    C4_extractTimecode.2.1 "INDEX 01 0:0" (by decide)⟩

end CueDoc

namespace CueDoc

/-- Amended C7: parsing the documentation-header example sheet yields exactly
3 tracks; each track's start offset is its own INDEX-01 timestamp — 426 ms
(00:00:32), 240960 ms (04:00:72) and 453933 ms (07:33:70) — and the end
offsets are 240960 ms, 453933 ms and 0.  (The INDEX-00 lines are ignored.) -/
theorem C7_example_sheet :
    (CCueDocument.Parse idEnv {} true exampleSheetLines "").fst = true ∧
    ((CCueDocument.Parse idEnv {} true exampleSheetLines "").snd.m_tracks.map
        fun t => (t.iStartTime, t.iEndTime))
      = [(426, 240960), (240960, 453933), (453933, 0)] := by
  constructor <;> decide

/-- Counterexample to C7 as stated: the claimed start offsets 0 / 238960 /
451933 are the INDEX-00 timestamps, but the code takes each track's start
from its INDEX-01 line, so the parsed start offsets differ from the claim. -/
theorem C7_counterexample :
    ((CCueDocument.Parse idEnv {} true exampleSheetLines "").snd.m_tracks.map
        fun t => t.iStartTime) = [426, 240960, 453933] ∧
    ¬ ((CCueDocument.Parse idEnv {} true exampleSheetLines "").snd.m_tracks.map
        fun t => t.iStartTime) = [0, 238960, 451933] := by
  constructor <;> decide

/-- First component of `ResolvePath` never depends on the filesystem: it is
always the directory of the sheet joined with the referenced file's name. -/
theorem resolvePath_fst (env : Env) (p b : String) :
    (resolvePath env p b).fst = env.addFileToFolder (env.getDirectory b) (env.getFileName p) := by
  simp only [resolvePath]
  split <;> rfl

theorem fileDirectiveValue_congr {e1 e2 : Env} (hconv : e1.conv = e2.conv)
    (hdir : e1.getDirectory = e2.getDirectory) (hfn : e1.getFileName = e2.getFileName)
    (hadd : e1.addFileToFolder = e2.addFileToFolder) (strFile line : String) :
    fileDirectiveValue e1 strFile line = fileDirectiveValue e2 strFile line := by
  simp only [fileDirectiveValue, resolvePath_fst, hconv, hdir, hfn, hadd]

theorem parseStep_env_congr {e1 e2 : Env} (hconv : e1.conv = e2.conv)
    (hdir : e1.getDirectory = e2.getDirectory) (hfn : e1.getFileName = e2.getFileName)
    (hadd : e1.addFileToFolder = e2.addFileToFolder) (strFile line : String)
    (doc : CCueDocument) (st : LoopSt) (rev : List CCueTrack) :
    parseStep e1 strFile line doc st rev = parseStep e2 strFile line doc st rev := by
  unfold parseStep
  rw [hconv, fileDirectiveValue_congr hconv hdir hfn hadd]

theorem parseLoop_env_congr {e1 e2 : Env} (hconv : e1.conv = e2.conv)
    (hdir : e1.getDirectory = e2.getDirectory) (hfn : e1.getFileName = e2.getFileName)
    (hadd : e1.addFileToFolder = e2.addFileToFolder) (strFile : String) :
    ∀ (lines : List String) (doc : CCueDocument) (st : LoopSt) (rev : List CCueTrack),
    parseLoop e1 strFile lines doc st rev = parseLoop e2 strFile lines doc st rev := by
  intro lines
  induction lines with
  | nil => intro doc st rev; rfl
  | cons line rest ih =>
    intro doc st rev
    rw [parseLoop, parseLoop, parseStep_env_congr hconv hdir hfn hadd]
    cases parseStep e2 strFile line doc st rev with
    | none => rfl
    | some x =>
      obtain ⟨d, s, r⟩ := x
      exact ih d s r

/-- Confirmed C8: the outcome of `Parse` does not depend on the
existence-check / directory-listing collaborators at all (a resolution
failure can never abort the parse or change the stored data), and on a FILE
directive with a non-empty sheet location and non-empty extracted name, the
parse continues with the best-effort joined path stored as the current
file. -/
theorem C8_resolve_failure_harmless (e1 e2 : Env)
    (hconv : e1.conv = e2.conv) (hdir : e1.getDirectory = e2.getDirectory)
    (hfn : e1.getFileName = e2.getFileName) (hadd : e1.addFileToFolder = e2.addFileToFolder) :
    (∀ (doc : CCueDocument) (ready : Bool) (lines : List String) (strFile : String),
      CCueDocument.Parse e1 doc ready lines strFile =
        CCueDocument.Parse e2 doc ready lines strFile) ∧
    (∀ (line strFile : String) (doc : CCueDocument) (st : LoopSt) (rev : List CCueTrack),
      startsWithNoCase line "FILE" = true → ¬ strFile = "" →
      ¬ extractInfo e1.conv (strDrop line 4) = "" →
      parseStep e1 strFile line doc st rev =
        some (doc,
          { strCurrentFile := e1.addFileToFolder (e1.getDirectory strFile)
              (e1.getFileName (extractInfo e1.conv (strDrop line 4))),
            bCurrentFileChanged :=
              if st.strCurrentFile = "" then st.bCurrentFileChanged else true,
            numberFiles := st.numberFiles + 1 }, rev)) := by
  constructor
  · intro doc ready lines strFile
    simp only [CCueDocument.Parse]
    rw [parseLoop_env_congr hconv hdir hfn hadd]
  · intro line strFile doc st rev hFile hsf hv
    rw [parseStep_file hFile]
    have hval : fileDirectiveValue e1 strFile line =
        e1.addFileToFolder (e1.getDirectory strFile)
          (e1.getFileName (extractInfo e1.conv (strDrop line 4))) := by
      simp only [fileDirectiveValue, resolvePath_fst]
      rw [if_pos ⟨hsf, hv⟩]
    rw [hval]

/-- Witness: changing the filesystem oracle from "nothing exists" to
"everything exists" leaves the parse of a concrete sheet unchanged, and the
FILE step stores the joined path. -/
theorem C8_resolve_failure_harmless_witness :
    (CCueDocument.Parse idEnv {} true ["FILE \"x.mp3\"", "TRACK 01", "INDEX 01 0:0:0"]
        "/d/s.cue" =
      CCueDocument.Parse
        { idEnv with
          fileExists := (fun _ => true),
          dirItems := (fun _ => ["a"]),
          isPath := (fun _ _ => true) } {} true
        ["FILE \"x.mp3\"", "TRACK 01", "INDEX 01 0:0:0"] "/d/s.cue") ∧
    parseStep idEnv "/d/s.cue" "FILE \"x.mp3\"" {} {} [] =
      some ({},
        { strCurrentFile := idEnv.addFileToFolder (idEnv.getDirectory "/d/s.cue")
            (idEnv.getFileName (extractInfo idEnv.conv (strDrop "FILE \"x.mp3\"" 4))),
          bCurrentFileChanged :=
            if ({} : LoopSt).strCurrentFile = "" then ({} : LoopSt).bCurrentFileChanged
            else true,
          numberFiles := ({} : LoopSt).numberFiles + 1 }, []) := by
  constructor
  · exact (C8_resolve_failure_harmless idEnv
      { idEnv with
        fileExists := (fun _ => true),
        dirItems := (fun _ => ["a"]),
        isPath := (fun _ _ => true) } rfl rfl rfl rfl).1 {} true
      ["FILE \"x.mp3\"", "TRACK 01", "INDEX 01 0:0:0"] "/d/s.cue"
  · exact (C8_resolve_failure_harmless idEnv idEnv rfl rfl rfl rfl).2
      "FILE \"x.mp3\"" "/d/s.cue" {} {} [] (by decide) (by decide) (by decide)

/-- Confirmed C9 (duration rounding): the materialised duration is 0 when the
end offset is 0, and otherwise is the millisecond difference rounded to whole
seconds — it differs from `(end − start)` ms by at most half a second; the
offsets are copied unchanged. -/
theorem C9_duration (doc : CCueDocument) (t : CCueTrack)
    (h0 : 0 ≤ t.iStartTime) (hse : t.iStartTime ≤ t.iEndTime) :
    (t.iEndTime = 0 → (songOfTrack doc t).iDuration = 0) ∧
    (¬ t.iEndTime = 0 →
      1000 * (songOfTrack doc t).iDuration - 500 ≤ t.iEndTime - t.iStartTime ∧
      t.iEndTime - t.iStartTime ≤ 1000 * (songOfTrack doc t).iDuration + 500) ∧
    (songOfTrack doc t).iStartOffset = t.iStartTime ∧
    (songOfTrack doc t).iEndOffset = t.iEndTime := by
  refine ⟨?_, ?_, rfl, rfl⟩
  · intro he
    simp [songOfTrack, he]
  · intro he
    have hdur : (songOfTrack doc t).iDuration =
        Int.tdiv (t.iEndTime - t.iStartTime + 500) 1000 := by
      simp [songOfTrack, he, roundMilliSecsToSecs]
    rw [hdur, Int.tdiv_eq_ediv (by omega) (by norm_num)]
    omega

/-- Witness: start 238960 ms, end 240960 ms — the rounded duration is 2
seconds, within half a second of the 2000 ms difference. -/
theorem C9_duration_witness :
    (songOfTrack {} ⟨"", "", "", 2, 238960, 240960, {}⟩).iDuration = 2 ∧
    (1000 * (songOfTrack {} ⟨"", "", "", 2, 238960, 240960, {}⟩).iDuration - 500 ≤
        (⟨"", "", "", 2, 238960, 240960, {}⟩ : CCueTrack).iEndTime -
          (⟨"", "", "", 2, 238960, 240960, {}⟩ : CCueTrack).iStartTime ∧
      (⟨"", "", "", 2, 238960, 240960, {}⟩ : CCueTrack).iEndTime -
          (⟨"", "", "", 2, 238960, 240960, {}⟩ : CCueTrack).iStartTime ≤
        1000 * (songOfTrack {} ⟨"", "", "", 2, 238960, 240960, {}⟩).iDuration + 500) :=
  ⟨by decide,
    (C9_duration {} ⟨"", "", "", 2, 238960, 240960, {}⟩ (by decide) (by decide)).2.1
      (by decide)⟩

end CueDoc
